import Mathlib

/-!
# Verification of the mongoose-tenant plugin core

Shallow embedding of the tenant-context engine of the WeAreNova
mongoose-tenant plugin: the query/document interception middleware
(`installMiddleWare`), the bound-model factory overrides (`createBoundModel`:
`aggregate`, `insertMany`), the per-tenant model cache (`injectApi`), the
schema index augmentation (`compoundIndexes`) and the tenant-aware
connection bridge (`createTenantAwareDb` / `isCompatibleTo`).

JavaScript objects are modelled as ordered association lists with
update-in-place assignment semantics; JS runtime values that occur as tenant
identifiers and document fields are modelled by the inductive `JSVal`.
-/

/-- JS runtime values used for tenant identifiers and document field values. -/
inductive JSVal where
  | num (n : Int)
  | str (s : String)
  | bool (b : Bool)
  | null
deriving DecidableEq, Repr

/-- The JS `String(v)` coercion used by the model cache for keying. -/
def JSVal.toStr : JSVal → String
  | .num n => toString n
  | .str s => s
  | .bool b => if b then "true" else "false"
  | .null => "null"

/-- Property lookup `o[key]` on a JS object (first matching key). -/
def jsGet {α : Type} : List (String × α) → String → Option α
  | [], _ => none
  | (k, v) :: rest, key => if k = key then some v else jsGet rest key

/-- Property assignment `o[key] = v` on a JS object: if the key is present its
value is updated in place (position kept), otherwise the pair is appended.
This is also the semantics of an object literal `{ ...o, [key]: v }`. -/
def jsSet {α : Type} : List (String × α) → String → α → List (String × α)
  | [], key, v => [(key, v)]
  | (k, w) :: rest, key, v =>
    if k = key then (k, v) :: rest else (k, w) :: jsSet rest key v

/-- A JS object holding JS values: documents, filter criteria, `$match` bodies. -/
abbrev Obj := List (String × JSVal)

theorem jsGet_jsSet_self {α : Type} (o : List (String × α)) (k : String) (v : α) :
    jsGet (jsSet o k v) k = some v := by
  induction o with
  | nil => simp [jsGet, jsSet]
  | cons hd tl ih =>
    by_cases h : hd.1 = k
    · simp [jsGet, jsSet, h]
    · simp [jsGet, jsSet, h, ih]

theorem jsGet_jsSet_ne {α : Type} (o : List (String × α)) (k k2 : String) (v : α)
    (h : k2 ≠ k) : jsGet (jsSet o k v) k2 = jsGet o k2 := by
  have hne : ¬k = k2 := fun hh => h hh.symm
  induction o with
  | nil => simp [jsGet, jsSet, hne]
  | cons hd tl ih =>
    obtain ⟨k1, v1⟩ := hd
    by_cases hk : k1 = k
    · subst hk
      simp [jsGet, jsSet, hne]
    · by_cases hk2 : k1 = k2
      · simp [jsGet, jsSet, hk, hk2, h]
      · simp [jsGet, jsSet, hk, hk2, ih]

theorem jsSet_of_not_mem {α : Type} (o : List (String × α)) (k : String) (v : α)
    (h : k ∉ o.map Prod.fst) : jsSet o k v = o ++ [(k, v)] := by
  induction o with
  | nil => rfl
  | cons hd tl ih =>
    obtain ⟨k1, v1⟩ := hd
    simp only [List.map_cons, List.mem_cons] at h
    push_neg at h
    have h1 : ¬k1 = k := fun hh => h.1 hh.symm
    simp [jsSet, h1, ih h.2]

theorem jsGet_mem {α : Type} (o : List (String × α)) (k : String) (v : α)
    (h : jsGet o k = some v) : (k, v) ∈ o := by
  induction o with
  | nil => simp [jsGet] at h
  | cons hd tl ih =>
    obtain ⟨k1, v1⟩ := hd
    by_cases hk : k1 = k
    · subst hk
      simp only [jsGet, if_pos, if_true, eq_self_iff_true, Option.some.injEq] at h
      subst h
      exact List.mem_cons_self _ _
    · simp only [jsGet, hk, if_false] at h
      exact List.mem_cons_of_mem _ (ih h)

theorem foldl_jsSet_append {α : Type} (d : List (String × α)) (acc : List (String × α))
    (hnd : (d.map Prod.fst).Nodup)
    (hdisj : ∀ x ∈ d.map Prod.fst, x ∉ acc.map Prod.fst) :
    d.foldl (fun a kv => jsSet a kv.1 kv.2) acc = acc ++ d := by
  induction d generalizing acc with
  | nil => simp
  | cons hd0 tl ih =>
    simp only [List.map_cons, List.nodup_cons] at hnd
    have hnot : hd0.1 ∉ acc.map Prod.fst := hdisj hd0.1 (by simp)
    have step : jsSet acc hd0.1 hd0.2 = acc ++ [(hd0.1, hd0.2)] :=
      jsSet_of_not_mem acc hd0.1 hd0.2 hnot
    have htl : ∀ x ∈ tl.map Prod.fst, x ∉ (acc ++ [(hd0.1, hd0.2)]).map Prod.fst := by
      intro x hx
      simp only [List.map_append, List.mem_append, List.map_cons, List.map_nil,
        List.mem_singleton]
      rintro (hxa | hxh)
      · exact hdisj x (by simp [hx]) hxa
      · exact hnd.1 (hxh ▸ hx)
    calc ((hd0 :: tl).foldl (fun a kv => jsSet a kv.1 kv.2) acc)
        = tl.foldl (fun a kv => jsSet a kv.1 kv.2) (jsSet acc hd0.1 hd0.2) := rfl
      _ = tl.foldl (fun a kv => jsSet a kv.1 kv.2) (acc ++ [(hd0.1, hd0.2)]) := by rw [step]
      _ = (acc ++ [(hd0.1, hd0.2)]) ++ tl := ih (acc ++ [(hd0.1, hd0.2)]) hnd.2 htl
      _ = acc ++ (hd0 :: tl) := by simp

/-! ## Query / document interception middleware (`installMiddleWare`) -/

/-- The fixed operation set guarded by `filterQueryMiddleware`. -/
def filterQueryOps : List String :=
  ["count", "countDocuments", "deleteMany", "deleteOne", "estimatedDocumentCount",
   "find", "findOne", "findOneAndDelete", "findOneAndRemove", "remove"]

/-- The fixed operation set guarded by `updateQueryMiddleware`. -/
def updateQueryOps : List String :=
  ["findOneAndUpdate", "update", "updateMany", "updateOne"]

/-- The document-scope operations guarded by `documentMiddleware`. -/
def documentOps : List String := ["save", "updateOne"]

/-- The executing model as observed by the middleware: the `hasTenantContext`
capability flag and the closed-over tenant id returned by `getTenant()`
(only consulted when `hasTenantContext` holds). -/
structure ModelCtx where
  hasTenantContext : Bool
  tenantId : JSVal
deriving DecidableEq, Repr

/-- Mongoose query state as touched by the middleware: the filter criteria
(`getQuery`/`setQuery`) and the update payload fields as applied through
`query.set` / `$set`. -/
structure QueryState where
  filter : Obj
  updSet : Obj
deriving DecidableEq, Repr

/-- `filterQueryMiddleware`: on a model with tenant context, replace the filter
with `{ ...this.getQuery(), [tenantIdKey]: this.model.getTenant() }`. -/
def filterQueryMiddleware (tenantIdKey : String) (m : ModelCtx) (q : QueryState) :
    QueryState :=
  if m.hasTenantContext then
    { q with filter := jsSet q.filter tenantIdKey m.tenantId }
  else q

/-- `updateQueryMiddleware`: on a model with tenant context, rewrite the filter
as above and additionally `this.set(tenantIdKey, tenantId)` on the update. -/
def updateQueryMiddleware (tenantIdKey : String) (m : ModelCtx) (q : QueryState) :
    QueryState :=
  if m.hasTenantContext then
    { filter := jsSet q.filter tenantIdKey m.tenantId,
      updSet := jsSet q.updSet tenantIdKey m.tenantId }
  else q

/-- `documentMiddleware`: on documents whose constructor has tenant context,
`this.set(tenantIdKey, model.getTenant())` before persistence. -/
def documentMiddleware (tenantIdKey : String) (m : ModelCtx) (doc : Obj) : Obj :=
  if m.hasTenantContext then jsSet doc tenantIdKey m.tenantId else doc

/-- Dispatch of the installed pre-hooks for a query-context operation `op`. -/
def runQueryPre (tenantIdKey op : String) (m : ModelCtx) (q : QueryState) :
    QueryState :=
  let q1 := if op ∈ filterQueryOps then filterQueryMiddleware tenantIdKey m q else q
  if op ∈ updateQueryOps then updateQueryMiddleware tenantIdKey m q1 else q1

/-- Dispatch of the installed pre-hooks for a document-context operation `op`. -/
def runDocPre (tenantIdKey op : String) (m : ModelCtx) (doc : Obj) : Obj :=
  if op ∈ documentOps then documentMiddleware tenantIdKey m doc else doc

/-- MongoDB equality-filter matching: a document matches when every filter
entry equals the corresponding document field. -/
def docMatches (filter doc : Obj) : Bool :=
  filter.all fun kv => jsGet doc kv.1 == some kv.2

/-- The value a field of a matched document holds after the update payload is
applied (`$set` fields win over existing document fields). -/
def updatedField (q : QueryState) (doc : Obj) (key : String) : Option JSVal :=
  match jsGet q.updSet key with
  | some v => some v
  | none => jsGet doc key

/-! ## Bound model overrides (`createBoundModel`) -/

/-- An aggregation pipeline stage: a `$match` stage carrying a filter object,
or any other stage kind (`$group`, `$sort`, ...) with its body. -/
inductive Stage where
  | matchStage (filter : Obj)
  | otherStage (kind : String) (body : Obj)
deriving DecidableEq, Repr

/-- The bound model's `aggregate` override, acting on the optional pipeline
argument. `if (!pipeline)` only catches an absent argument; on an explicitly
empty array the code reads `pipeline[0].$match` of `undefined` and throws a
TypeError, modelled as `Except.error`. A leading `$match` stage has the
tenant key assigned into its filter; otherwise a fresh `$match` stage is
prepended. -/
def boundAggregate (tenantIdKey : String) (tenantId : JSVal) :
    Option (List Stage) → Except String (List Stage)
  | none => .ok [.matchStage [(tenantIdKey, tenantId)]]
  | some [] => .error "TypeError"
  | some (.matchStage f :: rest) =>
    .ok (.matchStage (jsSet f tenantIdKey tenantId) :: rest)
  | some (.otherStage kind body :: rest) =>
    .ok (.matchStage [(tenantIdKey, tenantId)] :: .otherStage kind body :: rest)

/-- A hydrated document as returned from the overridden `insertMany`: the
persisted fields, wrapped in the bound model's constructor which carries the
`hasTenantContext` marker. -/
structure HydratedDoc where
  fields : Obj
  hasTenantContext : Bool
deriving DecidableEq, Repr

/-- The bound model's `insertMany` override: accepts a single document or an
array, force-sets the tenant field on each, lets the underlying store persist
them, and wraps each result in the bound constructor (`new this(doc)`).
`hasCb` selects between the callback-style and the promise-style completion
paths of the source, which perform the same stamping and wrapping. -/
def boundInsertMany (tenantIdKey : String) (tenantId : JSVal)
    (docs : Obj ⊕ List Obj) (hasCb : Bool) : List HydratedDoc :=
  let stamped : List Obj :=
    match docs with
    | .inl d => [jsSet d tenantIdKey tenantId]
    | .inr ds => ds.map fun d => jsSet d tenantIdKey tenantId
  if hasCb then
    stamped.map fun d => { fields := d, hasTenantContext := true }
  else
    stamped.map fun d => { fields := d, hasTenantContext := true }

/-! ## Per-tenant model cache (`injectApi`) -/

/-- A tenant-bound model as produced by `createTenantAwareModel`: the
closed-over raw tenant id, plus a construction counter `id` which stands for
JS reference identity (two factory invocations never yield the same `id`). -/
structure BoundModelV where
  id : Nat
  tenantId : JSVal
deriving DecidableEq, Repr

/-- The model context a bound model presents to the middleware:
`hasTenantContext = true` and `getTenant()` returning the closed-over id. -/
def BoundModelV.ctx (m : BoundModelV) : ModelCtx :=
  { hasTenantContext := true, tenantId := m.tenantId }

/-- State owned by the plugin instance: the `_modelCache` keyed by model name
then by stringified tenant id, a counter feeding fresh model identities, and
the log of `createTenantAwareModel` factory invocations. -/
structure CacheState where
  cache : List (String × List (String × BoundModelV))
  nextId : Nat
  factoryLog : List (String × String)
deriving DecidableEq, Repr

/-- The empty `_modelCache` of a freshly constructed plugin instance. -/
def CacheState.init : CacheState := { cache := [], nextId := 0, factoryLog := [] }

/-- Cache lookup `modelCache[modelName]?.[strTenantId]`. -/
def cacheFind (st : CacheState) (modelName strTenantId : String) :
    Option BoundModelV :=
  match jsGet st.cache modelName with
  | none => none
  | some inner => jsGet inner strTenantId

/-- The enabled path of the accessor: stringify the tenant id, look the bound
model up in the cache, and on a miss invoke the factory
(`createTenantAwareModel`), record it, and cache the result. -/
def boundModelFor (modelName : String) (tenantId : JSVal) (st : CacheState) :
    BoundModelV × CacheState :=
  let strT := tenantId.toStr
  match cacheFind st modelName strT with
  | some m => (m, st)
  | none =>
    let inner := (jsGet st.cache modelName).getD []
    let m : BoundModelV := { id := st.nextId, tenantId := tenantId }
    (m, { cache := jsSet st.cache modelName (jsSet inner strT m),
          nextId := st.nextId + 1,
          factoryLog := st.factoryLog ++ [(modelName, strT)] })

/-- The result of the injected static accessor (`byTenant`): the unbound base
model (`this`) when the plugin is disabled, else a cached bound model. -/
inductive AccessorResult where
  | base
  | bound (m : BoundModelV)
deriving DecidableEq, Repr

/-- The static accessor method installed by `injectApi`. -/
def byTenant (enabled : Bool) (modelName : String) (tenantId : JSVal)
    (st : CacheState) : AccessorResult × CacheState :=
  if enabled then
    let r := boundModelFor modelName tenantId st
    (.bound r.1, r.2)
  else (.base, st)

/-- A sequence of accessor calls threaded through the cache state. -/
def runAccessorCalls (enabled : Bool) (calls : List (String × JSVal))
    (st : CacheState) : CacheState :=
  calls.foldl (fun s c => (byTenant enabled c.1 c.2 s).2) st

/-! ## Cross-model propagation bridge (`createTenantAwareDb`) -/

/-- The observable surface of another schema's plugin instance, as probed by
`isCompatibleTo` and used by the bridge: whether the introspection methods
exist as functions, the configured tenant id key, and the enabled flag its
accessor consults. -/
structure PluginInfo where
  enabled : Bool
  hasGetAccessorMethod : Bool
  hasGetTenantIdKey : Bool
  tenantIdKey : String
deriving DecidableEq, Repr

/-- An unbound mongoose model as resolved through the base connection:
its name and the `mongoTenant` plugin instance, when one is installed. -/
structure UnboundModel where
  modelName : String
  mongoTenant : Option PluginInfo
deriving DecidableEq, Repr

/-- `isCompatibleTo`: the other plugin instance exists, exposes
`getAccessorMethod` and `getTenantIdKey` as functions, and its tenant id key
equals this plugin's. -/
def isCompatibleTo (selfTenantIdKey : String) (plugin : Option PluginInfo) : Bool :=
  match plugin with
  | none => false
  | some p =>
    p.hasGetAccessorMethod && p.hasGetTenantIdKey && (selfTenantIdKey == p.tenantIdKey)

/-- What the tenant-aware connection's model resolver returns: the plain
unbound model, or a tenant-bound model. -/
inductive ResolvedModel where
  | plain (m : UnboundModel)
  | bound (m : BoundModelV)
deriving DecidableEq, Repr

/-- The `model(name)` resolver of the connection produced by
`createTenantAwareDb`: resolve the plain model, return it untouched unless its
plugin is compatible; for a compatible plugin invoke that model's own accessor
method with the same tenant id (which yields the unbound model again when that
plugin is disabled). -/
def awareDbModel (selfTenantIdKey : String) (tenantId : JSVal)
    (resolve : String → UnboundModel) (st : CacheState) (name : String) :
    ResolvedModel × CacheState :=
  let unawareModel := resolve name
  if isCompatibleTo selfTenantIdKey unawareModel.mongoTenant then
    match unawareModel.mongoTenant with
    | some p =>
      match byTenant p.enabled unawareModel.modelName tenantId st with
      | (.base, st2) => (.plain unawareModel, st2)
      | (.bound bm, st2) => (.bound bm, st2)
    | none => (.plain unawareModel, st)
  else (.plain unawareModel, st)

/-! ## Schema index augmentation (`compoundIndexes`) -/

/-- Index options relevant to the augmentation: the uniqueness flag, the
`preserveUniqueKey` opt-out, and the options the rewrite must carry forward. -/
structure IndexOptions where
  unique : Bool := false
  preserveUniqueKey : Bool := false
  sparse : Bool := false
  partialFilterExpression : Option Obj := none
deriving DecidableEq, Repr

/-- A schema-level index: the ordered key set and its options. -/
structure IndexSpec where
  keys : List (String × Int)
  options : IndexOptions
deriving DecidableEq, Repr

/-- The rebuilt key set: a fresh object `{ [tenantIdKey]: 1 }` into which every
original key is assigned in order (JS object assignment semantics). -/
def tenantAwareIndexKeys (tenantIdKey : String) (keys : List (String × Int)) :
    List (String × Int) :=
  keys.foldl (fun acc kv => jsSet acc kv.1 kv.2) [(tenantIdKey, 1)]

/-- The schema-level pass of `compoundIndexes` on a single index: skip unless
`unique === true` and not `preserveUniqueKey === true`, else rebuild the keys. -/
def compoundSchemaIndex (tenantIdKey : String) (idx : IndexSpec) : IndexSpec :=
  if !idx.options.unique || idx.options.preserveUniqueKey then idx
  else { idx with keys := tenantAwareIndexKeys tenantIdKey idx.keys }

/-- The field-level pass of `compoundIndexes` on a single schema path: for a
path with `unique: true` and without `preserveUniqueKey: true`, declare a new
compound index `{ [tenantIdKey]: 1, [key]: 1 }` carrying the path's options
with `unique: true`; otherwise declare nothing. -/
def fieldCompoundEntry (tenantIdKey : String) (p : String × IndexOptions) :
    Option IndexSpec :=
  if !p.2.unique || p.2.preserveUniqueKey then none
  else some { keys := jsSet [(tenantIdKey, 1)] p.1 1,
              options := { p.2 with unique := true } }

/-- A schema as touched by `compoundIndexes`: its declared schema-level
indexes and its paths with their field-level index options. -/
structure SchemaState where
  indexes : List IndexSpec
  paths : List (String × IndexOptions)
deriving DecidableEq, Repr

/-- `compoundIndexes()`: no-op when disabled; else rewrite every schema-level
index in place and then append one compound index per eligible unique path.
The paths themselves (and hence their own field-level index declarations) are
not modified. -/
def compoundIndexes (enabled : Bool) (tenantIdKey : String) (s : SchemaState) :
    SchemaState :=
  if !enabled then s
  else
    { indexes := s.indexes.map (compoundSchemaIndex tenantIdKey)
        ++ s.paths.filterMap (fieldCompoundEntry tenantIdKey),
      paths := s.paths }

/-! ## Dispatch and matching lemmas -/

theorem runQueryPre_filterOp (tenantIdKey op : String) (m : ModelCtx) (q : QueryState)
    (hop : op ∈ filterQueryOps) :
    runQueryPre tenantIdKey op m q = filterQueryMiddleware tenantIdKey m q := by
  simp only [filterQueryOps] at hop
  fin_cases hop <;> rfl

theorem runQueryPre_updateOp (tenantIdKey op : String) (m : ModelCtx) (q : QueryState)
    (hop : op ∈ updateQueryOps) :
    runQueryPre tenantIdKey op m q = updateQueryMiddleware tenantIdKey m q := by
  simp only [updateQueryOps] at hop
  fin_cases hop <;> rfl

theorem runDocPre_documentOp (tenantIdKey op : String) (m : ModelCtx) (doc : Obj)
    (hop : op ∈ documentOps) :
    runDocPre tenantIdKey op m doc = documentMiddleware tenantIdKey m doc := by
  simp only [documentOps] at hop
  fin_cases hop <;> rfl

theorem docMatches_true_get (filter doc : Obj) (k : String) (v : JSVal)
    (hf : jsGet filter k = some v) (hm : docMatches filter doc = true) :
    jsGet doc k = some v := by
  have hmem := jsGet_mem filter k v hf
  have hall := (List.all_eq_true.mp hm) (k, v) hmem
  simpa using hall

theorem docMatches_false_of (filter doc : Obj) (k : String) (v w : JSVal)
    (hf : jsGet filter k = some v) (hd : jsGet doc k = some w) (hne : w ≠ v) :
    docMatches filter doc = false := by
  cases hb : docMatches filter doc with
  | false => rfl
  | true =>
    have hv := docMatches_true_get filter doc k v hf hb
    rw [hd] at hv
    exact absurd (Option.some.inj hv) hne

/-! ## The claims about the interception middleware -/

/-- **C1**: every read/delete operation of the fixed set executed through a
model with tenant context has the tenant-id key of its filter overwritten
with the bound tenant value; through a model without tenant context the
query is untouched; consequently a filter naming a foreign tenant explicitly
matches only documents of the bound tenant. -/
theorem filterOps_guard_tenant_scope (tenantIdKey op : String) (m : ModelCtx)
    (q : QueryState) (doc : Obj) (t1 : JSVal) (hop : op ∈ filterQueryOps) :
    (m.hasTenantContext = true →
      (runQueryPre tenantIdKey op m q).filter = jsSet q.filter tenantIdKey m.tenantId ∧
      jsGet (runQueryPre tenantIdKey op m q).filter tenantIdKey = some m.tenantId) ∧
    (m.hasTenantContext = false → runQueryPre tenantIdKey op m q = q) ∧
    (m.hasTenantContext = true →
      docMatches (runQueryPre tenantIdKey op m q).filter doc = true →
      jsGet doc tenantIdKey = some m.tenantId) ∧
    (m.hasTenantContext = true → jsGet doc tenantIdKey = some t1 →
      t1 ≠ m.tenantId →
      docMatches (runQueryPre tenantIdKey op m q).filter doc = false) := by
  rw [runQueryPre_filterOp tenantIdKey op m q hop]
  refine ⟨fun h => ?_, fun h => ?_, fun h hm => ?_, fun h hd hne => ?_⟩
  · simp [filterQueryMiddleware, h, jsGet_jsSet_self]
  · simp [filterQueryMiddleware, h]
  · exact docMatches_true_get _ doc tenantIdKey m.tenantId
      (by simp [filterQueryMiddleware, h, jsGet_jsSet_self]) hm
  · exact docMatches_false_of _ doc tenantIdKey m.tenantId t1
      (by simp [filterQueryMiddleware, h, jsGet_jsSet_self]) hd hne

theorem filterOps_guard_tenant_scope_witness :
    ("find" ∈ filterQueryOps) ∧
    docMatches
      (runQueryPre "tenant" "find" ⟨true, JSVal.str "t2"⟩
        ⟨[("tenant", JSVal.str "t1")], []⟩).filter
      [("tenant", JSVal.str "t1")] = false :=
  ⟨by decide,
   (filterOps_guard_tenant_scope "tenant" "find" ⟨true, JSVal.str "t2"⟩
      ⟨[("tenant", JSVal.str "t1")], []⟩ [("tenant", JSVal.str "t1")]
      (JSVal.str "t1") (by decide)).2.2.2 rfl (by decide) (by decide)⟩

/-- **C2**: every update operation of the fixed set executed through a model
with tenant context has the bound tenant merged into the filter (overwriting
a caller-supplied tenant key) and force-set into the update payload, so that
the tenant field of a matched document after the update holds the bound
tenant value even when the payload carried a conflicting assignment. -/
theorem updateOps_guard_tenant_scope (tenantIdKey op : String) (m : ModelCtx)
    (q : QueryState) (doc : Obj) (hop : op ∈ updateQueryOps)
    (hctx : m.hasTenantContext = true) :
    (runQueryPre tenantIdKey op m q).filter = jsSet q.filter tenantIdKey m.tenantId ∧
    jsGet (runQueryPre tenantIdKey op m q).filter tenantIdKey = some m.tenantId ∧
    (runQueryPre tenantIdKey op m q).updSet = jsSet q.updSet tenantIdKey m.tenantId ∧
    jsGet (runQueryPre tenantIdKey op m q).updSet tenantIdKey = some m.tenantId ∧
    updatedField (runQueryPre tenantIdKey op m q) doc tenantIdKey = some m.tenantId := by
  rw [runQueryPre_updateOp tenantIdKey op m q hop]
  simp [updateQueryMiddleware, hctx, jsGet_jsSet_self, updatedField]

theorem updateOps_guard_tenant_scope_witness :
    updatedField
      (runQueryPre "tenant" "updateOne" ⟨true, JSVal.str "tenant1"⟩
        ⟨[], [("tenant", JSVal.str "tenant2"), ("someField", JSVal.str "x")]⟩)
      [("tenant", JSVal.str "tenant1")] "tenant" = some (JSVal.str "tenant1") :=
  (updateOps_guard_tenant_scope "tenant" "updateOne" ⟨true, JSVal.str "tenant1"⟩
    ⟨[], [("tenant", JSVal.str "tenant2"), ("someField", JSVal.str "x")]⟩
    [("tenant", JSVal.str "tenant1")] (by decide) rfl).2.2.2.2

/-- **C6**: on the document-scope `save` and `updateOne` hooks, a document
whose constructor has tenant context has its tenant field set to the
constructor's `getTenant()` before persistence, regardless of any value
previously assigned to that field by direct mutation. -/
theorem documentOps_stamp_tenant (tenantIdKey op : String) (m : ModelCtx)
    (doc : Obj) (hop : op ∈ documentOps) (hctx : m.hasTenantContext = true) :
    runDocPre tenantIdKey op m doc = jsSet doc tenantIdKey m.tenantId ∧
    jsGet (runDocPre tenantIdKey op m doc) tenantIdKey = some m.tenantId := by
  rw [runDocPre_documentOp tenantIdKey op m doc hop]
  simp [documentMiddleware, hctx, jsGet_jsSet_self]

theorem documentOps_stamp_tenant_witness :
    jsGet (runDocPre "tenant" "save" ⟨true, JSVal.str "bound"⟩
      [("tenant", JSVal.str "mutated")]) "tenant" = some (JSVal.str "bound") :=
  (documentOps_stamp_tenant "tenant" "save" ⟨true, JSVal.str "bound"⟩
    [("tenant", JSVal.str "mutated")] (by decide) rfl).2

/-! ## The claims about the bound model overrides -/

theorem boundInsertMany_fields (tenantIdKey : String) (t : JSVal)
    (docs : Obj ⊕ List Obj) (hasCb : Bool) (d : HydratedDoc)
    (hd : d ∈ boundInsertMany tenantIdKey t docs hasCb) :
    jsGet d.fields tenantIdKey = some t ∧ d.hasTenantContext = true := by
  cases docs with
  | inl d0 =>
    cases hasCb <;>
      · simp only [boundInsertMany, List.map_cons, List.map_nil, if_true, if_false,
          Bool.false_eq_true, List.mem_singleton] at hd
        subst hd
        simp [jsGet_jsSet_self]
  | inr ds =>
    cases hasCb <;>
      · simp only [boundInsertMany, List.mem_map, if_true, if_false,
          Bool.false_eq_true] at hd
        obtain ⟨d1, hx, rfl⟩ := hd
        obtain ⟨a, ha, rfl⟩ := hx
        simp [jsGet_jsSet_self]

/-- **C5**: the `insertMany` override force-sets the tenant field of each
given document (single or array form) to the bound tenant id, overwriting
any caller-supplied value, and wraps every persisted result in the bound
constructor, so all returned documents carry the bound tenant value and
`hasTenantContext = true`, on both the promise and the callback path. -/
theorem insertMany_stamps_tenant (tenantIdKey : String) (t : JSVal)
    (docs : Obj ⊕ List Obj) (hasCb : Bool) :
    ∀ d ∈ boundInsertMany tenantIdKey t docs hasCb,
      jsGet d.fields tenantIdKey = some t ∧ d.hasTenantContext = true :=
  fun d hd => boundInsertMany_fields tenantIdKey t docs hasCb d hd

theorem insertMany_stamps_tenant_witness :
    jsGet (HydratedDoc.mk [("tenant", JSVal.num 1)] true).fields "tenant" =
        some (JSVal.num 1) ∧
      (HydratedDoc.mk [("tenant", JSVal.num 1)] true).hasTenantContext = true :=
  insertMany_stamps_tenant "tenant" (JSVal.num 1)
    (Sum.inr [[("tenant", JSVal.num 2)], [("tenant", JSVal.num (-3))],
      [("tenant", JSVal.str "2")]])
    false ⟨[("tenant", JSVal.num 1)], true⟩ (by decide)

/-- **C4** (counterexample): the claim says an empty pipeline becomes a single
`$match` stage, but on an explicitly empty pipeline array the override reads
`pipeline[0].$match` of `undefined` and throws a TypeError instead. -/
theorem aggregate_empty_pipeline_cex :
    boundAggregate "tenant" (JSVal.str "t1") (some []) = Except.error "TypeError" ∧
    boundAggregate "tenant" (JSVal.str "t1") (some []) ≠
      Except.ok [Stage.matchStage [("tenant", JSVal.str "t1")]] :=
  ⟨rfl, fun h => Except.noConfusion h⟩

/-- **C4** (amended): an absent pipeline argument becomes a single `$match`
stage filtering by the bound tenant; an explicitly empty pipeline array
throws a TypeError; a pipeline whose first stage is a `$match` has the tenant
key merged into that stage's filter, overwriting an existing key of that
name; any other pipeline gets a new `$match` stage prepended ahead of the
original stages, which keep their order. -/
theorem aggregate_override_spec (tenantIdKey : String) (t : JSVal) :
    boundAggregate tenantIdKey t none =
      Except.ok [Stage.matchStage [(tenantIdKey, t)]] ∧
    boundAggregate tenantIdKey t (some []) = Except.error "TypeError" ∧
    (∀ (f : Obj) (rest : List Stage),
      boundAggregate tenantIdKey t (some (Stage.matchStage f :: rest)) =
        Except.ok (Stage.matchStage (jsSet f tenantIdKey t) :: rest)) ∧
    (∀ f : Obj, jsGet (jsSet f tenantIdKey t) tenantIdKey = some t) ∧
    (∀ (kind : String) (body : Obj) (rest : List Stage),
      boundAggregate tenantIdKey t (some (Stage.otherStage kind body :: rest)) =
        Except.ok (Stage.matchStage [(tenantIdKey, t)] ::
          Stage.otherStage kind body :: rest)) :=
  ⟨rfl, rfl, fun _ _ => rfl, fun f => jsGet_jsSet_self f tenantIdKey t,
   fun _ _ _ => rfl⟩

/-! ## The claims about the model cache -/

theorem cacheFind_boundModelFor (name : String) (tid : JSVal) (st : CacheState) :
    cacheFind (boundModelFor name tid st).2 name tid.toStr =
      some (boundModelFor name tid st).1 := by
  cases hfind : cacheFind st name tid.toStr with
  | some m => simp [boundModelFor, hfind]
  | none =>
    simp only [boundModelFor, hfind]
    simp [cacheFind, jsGet_jsSet_self]

theorem boundModelFor_hit (name : String) (tid : JSVal) (st : CacheState)
    (m : BoundModelV) (h : cacheFind st name tid.toStr = some m) :
    boundModelFor name tid st = (m, st) := by
  simp [boundModelFor, h]

theorem cacheFind_boundModelFor_other (name : String) (tid : JSVal) (st : CacheState)
    (p : String × String) (hne : p ≠ (name, tid.toStr)) :
    cacheFind (boundModelFor name tid st).2 p.1 p.2 = cacheFind st p.1 p.2 := by
  cases hfind : cacheFind st name tid.toStr with
  | some m => simp [boundModelFor, hfind]
  | none =>
    obtain ⟨p1, p2⟩ := p
    simp only [boundModelFor, hfind]
    by_cases h1 : p1 = name
    · subst h1
      have h2 : ¬p2 = tid.toStr := fun hh => hne (by rw [hh])
      have h2s : ¬tid.toStr = p2 := fun hh => h2 hh.symm
      cases hc : jsGet st.cache p1 with
      | none =>
        simp [cacheFind, hc, jsGet_jsSet_self, jsGet_jsSet_ne, h2, h2s, jsGet]
      | some inner0 =>
        simp [cacheFind, hc, jsGet_jsSet_self, jsGet_jsSet_ne, h2, h2s]
    · have h1s : ¬name = p1 := fun hh => h1 hh.symm
      simp [cacheFind, jsGet_jsSet_ne, h1, h1s]

/-- The invariant tying the factory-invocation log to the cache contents: a
pair was handed to the factory exactly when it is cached, and the log holds
no duplicates. -/
def CacheInv (st : CacheState) : Prop :=
  st.factoryLog.Nodup ∧
  ∀ p : String × String, p ∈ st.factoryLog ↔ cacheFind st p.1 p.2 ≠ none

theorem cacheInv_init : CacheInv CacheState.init := by
  constructor
  · exact List.nodup_nil
  · intro p
    simp [CacheState.init, cacheFind, jsGet]

theorem cacheInv_boundModelFor (name : String) (tid : JSVal) (st : CacheState)
    (h : CacheInv st) : CacheInv (boundModelFor name tid st).2 := by
  cases hfind : cacheFind st name tid.toStr with
  | some m =>
    have heq : boundModelFor name tid st = (m, st) :=
      boundModelFor_hit name tid st m hfind
    rw [heq]
    exact h
  | none =>
    have hnotin : (name, tid.toStr) ∉ st.factoryLog := fun hmem => (h.2 _).mp hmem hfind
    have hlog : (boundModelFor name tid st).2.factoryLog =
        st.factoryLog ++ [(name, tid.toStr)] := by
      simp only [boundModelFor, hfind]
    constructor
    · rw [hlog, List.nodup_append]
      exact ⟨h.1, List.nodup_singleton _, by
        intro a ha hb
        simp only [List.mem_singleton] at hb
        subst hb
        exact hnotin ha⟩
    · intro p
      rw [hlog]
      by_cases hp : p = (name, tid.toStr)
      · subst hp
        simp only [List.mem_append, List.mem_singleton, or_true, true_iff]
        rw [cacheFind_boundModelFor]
        simp
      · rw [cacheFind_boundModelFor_other name tid st p hp]
        simp only [List.mem_append, List.mem_singleton, hp, or_false]
        exact h.2 p

theorem cacheInv_byTenant (enabled : Bool) (name : String) (tid : JSVal)
    (st : CacheState) (h : CacheInv st) : CacheInv (byTenant enabled name tid st).2 := by
  cases enabled with
  | false => simpa [byTenant] using h
  | true => simpa [byTenant] using cacheInv_boundModelFor name tid st h

theorem cacheInv_runAccessorCalls (enabled : Bool) (calls : List (String × JSVal))
    (st : CacheState) (h : CacheInv st) :
    CacheInv (runAccessorCalls enabled calls st) := by
  induction calls generalizing st with
  | nil => simpa [runAccessorCalls] using h
  | cons c rest ih =>
    have h1 := cacheInv_byTenant enabled c.1 c.2 st h
    simpa [runAccessorCalls] using ih (byTenant enabled c.1 c.2 st).2 h1

/-- **C3**: repeated accessor calls with the same tenant value — or any value
with the same stringification — return the identical cached bound model with
an unchanged cache, and over any sequence of accessor calls the factory is
invoked at most once per distinct `(modelName, String(tenantId))` pair. -/
theorem byTenant_cache_identity :
    (∀ (name : String) (v v2 : JSVal) (st : CacheState), v2.toStr = v.toStr →
      byTenant true name v2 (byTenant true name v st).2 =
        byTenant true name v st) ∧
    (∀ (enabled : Bool) (calls : List (String × JSVal)),
      (runAccessorCalls enabled calls CacheState.init).factoryLog.Nodup) := by
  constructor
  · intro name v v2 st hstr
    have hfind : cacheFind (boundModelFor name v st).2 name v2.toStr =
        some (boundModelFor name v st).1 := by
      rw [hstr]
      exact cacheFind_boundModelFor name v st
    have h2 := boundModelFor_hit name v2 (boundModelFor name v st).2
      (boundModelFor name v st).1 hfind
    simp [byTenant, h2]
  · intro enabled calls
    exact (cacheInv_runAccessorCalls enabled calls CacheState.init cacheInv_init).1

theorem byTenant_cache_identity_witness :
    byTenant true "M" (JSVal.str "1")
        (byTenant true "M" (JSVal.num 1) CacheState.init).2 =
      byTenant true "M" (JSVal.num 1) CacheState.init ∧
    (runAccessorCalls true [("M", JSVal.num 1), ("M", JSVal.str "1")]
        CacheState.init).factoryLog.Nodup :=
  ⟨byTenant_cache_identity.1 "M" (JSVal.num 1) (JSVal.str "1") CacheState.init
      (by decide),
   byTenant_cache_identity.2 true [("M", JSVal.num 1), ("M", JSVal.str "1")]⟩

/-- **C10**: when the accessor is first called with `v1` and later with a
distinct `v2` whose stringification collides, the second call returns the
cached model bound to `v1`: its `getTenant()` yields `v1`, and every filter,
update payload, aggregation stage and inserted document produced through it
uses `v1`, never `v2`. -/
theorem byTenant_collision_first_value_wins (name tenantIdKey : String)
    (v1 v2 : JSVal) (q : QueryState) (docs : Obj ⊕ List Obj) (hasCb : Bool)
    (_hne : v1 ≠ v2) (hstr : v2.toStr = v1.toStr) :
    (boundModelFor name v1 CacheState.init).1 = ⟨0, v1⟩ ∧
    byTenant true name v2 (byTenant true name v1 CacheState.init).2 =
      byTenant true name v1 CacheState.init ∧
    (BoundModelV.mk 0 v1).ctx.tenantId = v1 ∧
    jsGet (filterQueryMiddleware tenantIdKey (BoundModelV.mk 0 v1).ctx q).filter
      tenantIdKey = some v1 ∧
    jsGet (updateQueryMiddleware tenantIdKey (BoundModelV.mk 0 v1).ctx q).updSet
      tenantIdKey = some v1 ∧
    boundAggregate tenantIdKey v1 none =
      Except.ok [Stage.matchStage [(tenantIdKey, v1)]] ∧
    ∀ d ∈ boundInsertMany tenantIdKey v1 docs hasCb,
      jsGet d.fields tenantIdKey = some v1 := by
  refine ⟨?_, ?_, rfl, ?_, ?_, rfl, ?_⟩
  · simp [boundModelFor, cacheFind, CacheState.init, jsGet]
  · have hfind : cacheFind (boundModelFor name v1 CacheState.init).2 name v2.toStr =
        some (boundModelFor name v1 CacheState.init).1 := by
      rw [hstr]
      exact cacheFind_boundModelFor name v1 CacheState.init
    have h2 := boundModelFor_hit name v2 (boundModelFor name v1 CacheState.init).2
      (boundModelFor name v1 CacheState.init).1 hfind
    simp [byTenant, h2]
  · simp [filterQueryMiddleware, BoundModelV.ctx, jsGet_jsSet_self]
  · simp [updateQueryMiddleware, BoundModelV.ctx, jsGet_jsSet_self]
  · exact fun d hd => (boundInsertMany_fields tenantIdKey v1 docs hasCb d hd).1

theorem byTenant_collision_first_value_wins_witness :
    byTenant true "M" (JSVal.str "1")
        (byTenant true "M" (JSVal.num 1) CacheState.init).2 =
      byTenant true "M" (JSVal.num 1) CacheState.init ∧
    (boundModelFor "M" (JSVal.num 1) CacheState.init).1 = ⟨0, JSVal.num 1⟩ :=
  ⟨(byTenant_collision_first_value_wins "M" "tenant" (JSVal.num 1) (JSVal.str "1")
      ⟨[], []⟩ (Sum.inr []) false (by decide) (by decide)).2.1,
   (byTenant_collision_first_value_wins "M" "tenant" (JSVal.num 1) (JSVal.str "1")
      ⟨[], []⟩ (Sum.inr []) false (by decide) (by decide)).1⟩

/-! ## The claims about the propagation bridge -/

/-- A plugin instance that passes every `isCompatibleTo` probe but whose
`enabled` flag is false; its accessor method returns the unbound model. -/
def disabledCompatPlugin : PluginInfo :=
  { enabled := false, hasGetAccessorMethod := true, hasGetTenantIdKey := true,
    tenantIdKey := "tenant" }

/-- A model carrying `disabledCompatPlugin` as its `mongoTenant` instance. -/
def disabledCompatModel : UnboundModel :=
  { modelName := "Other", mongoTenant := some disabledCompatPlugin }

/-- **C9** (counterexample): a plugin instance can be compatible — it exists,
exposes both introspection methods, and has an equal tenant-id key — while
its `enabled` flag is false, in which case its accessor method returns the
plain unbound model, not a tenant-bound one. -/
theorem awareDbModel_disabled_compat_cex :
    isCompatibleTo "tenant" disabledCompatModel.mongoTenant = true ∧
    (awareDbModel "tenant" (JSVal.str "t1") (fun _ => disabledCompatModel)
        CacheState.init "Other").1 = ResolvedModel.plain disabledCompatModel := by
  constructor
  · rfl
  · rfl

/-- **C9** (amended): the tenant-aware connection's model resolver returns the
plain model when the resolved model's plugin is incompatible; when the plugin
is compatible it invokes that model's accessor with the same tenant id, which
yields the bound model from the shared cache when that plugin is enabled and
the plain unbound model when it is disabled; compatibility is exactly:
the plugin exists, exposes `getAccessorMethod` and `getTenantIdKey` as
functions, and has a tenant-id key equal to this plugin's. No case raises. -/
theorem awareDbModel_dispatch (selfTenantIdKey name : String) (tenantId : JSVal)
    (resolve : String → UnboundModel) (st : CacheState) :
    (isCompatibleTo selfTenantIdKey (resolve name).mongoTenant = false →
      awareDbModel selfTenantIdKey tenantId resolve st name =
        (.plain (resolve name), st)) ∧
    (∀ p : PluginInfo, (resolve name).mongoTenant = some p →
      isCompatibleTo selfTenantIdKey (some p) = true → p.enabled = true →
      awareDbModel selfTenantIdKey tenantId resolve st name =
        (.bound (boundModelFor (resolve name).modelName tenantId st).1,
         (boundModelFor (resolve name).modelName tenantId st).2)) ∧
    (∀ p : PluginInfo, (resolve name).mongoTenant = some p →
      isCompatibleTo selfTenantIdKey (some p) = true → p.enabled = false →
      awareDbModel selfTenantIdKey tenantId resolve st name =
        (.plain (resolve name), st)) ∧
    (∀ p : PluginInfo, isCompatibleTo selfTenantIdKey (some p) =
      (p.hasGetAccessorMethod && p.hasGetTenantIdKey &&
        (selfTenantIdKey == p.tenantIdKey))) ∧
    isCompatibleTo selfTenantIdKey none = false := by
  refine ⟨fun hc => ?_, fun p hp hc he => ?_, fun p hp hc he => ?_,
    fun p => rfl, rfl⟩
  · simp [awareDbModel, hc]
  · simp [awareDbModel, hp, hc, byTenant, he]
  · simp [awareDbModel, hp, hc, byTenant, he]

theorem awareDbModel_dispatch_witness :
    awareDbModel "tenant" (JSVal.str "t1")
        (fun _ => UnboundModel.mk "Ref" (some (PluginInfo.mk true true true "tenant")))
        CacheState.init "Ref" =
      (.bound (boundModelFor "Ref" (JSVal.str "t1") CacheState.init).1,
       (boundModelFor "Ref" (JSVal.str "t1") CacheState.init).2) :=
  (awareDbModel_dispatch "tenant" "Ref" (JSVal.str "t1")
      (fun _ => UnboundModel.mk "Ref" (some (PluginInfo.mk true true true "tenant")))
      CacheState.init).2.1
    (PluginInfo.mk true true true "tenant") rfl (by decide) rfl

/-! ## The claims about the index augmentation -/

theorem compoundIndexes_enabled (tenantIdKey : String) (s : SchemaState) :
    compoundIndexes true tenantIdKey s =
      { indexes := s.indexes.map (compoundSchemaIndex tenantIdKey)
          ++ s.paths.filterMap (fieldCompoundEntry tenantIdKey),
        paths := s.paths } := rfl

/-- **C7**: after `compoundIndexes()` on an enabled plugin, every schema-level
index declared `unique: true` without `preserveUniqueKey: true` has the
tenant-id field as its first key followed by the original keys in their
original order; every other schema-level index is left unchanged. -/
theorem compoundIndexes_schema_level (tenantIdKey : String) (s : SchemaState)
    (idx : IndexSpec) (hmem : idx ∈ s.indexes) :
    (idx.options.unique = true → idx.options.preserveUniqueKey = false →
      (idx.keys.map Prod.fst).Nodup → tenantIdKey ∉ idx.keys.map Prod.fst →
      compoundSchemaIndex tenantIdKey idx =
        { keys := (tenantIdKey, 1) :: idx.keys, options := idx.options } ∧
      { keys := (tenantIdKey, 1) :: idx.keys, options := idx.options } ∈
        (compoundIndexes true tenantIdKey s).indexes) ∧
    ((idx.options.unique = false ∨ idx.options.preserveUniqueKey = true) →
      compoundSchemaIndex tenantIdKey idx = idx ∧
      idx ∈ (compoundIndexes true tenantIdKey s).indexes) := by
  constructor
  · intro hu hp hnd hnotin
    have hdisj : ∀ x ∈ idx.keys.map Prod.fst,
        x ∉ ([(tenantIdKey, (1 : Int))].map Prod.fst) := by
      intro x hx
      simp only [List.map_cons, List.map_nil, List.mem_singleton]
      intro hh
      exact hnotin (hh ▸ hx)
    have hkeys : tenantAwareIndexKeys tenantIdKey idx.keys =
        (tenantIdKey, 1) :: idx.keys := by
      unfold tenantAwareIndexKeys
      rw [foldl_jsSet_append idx.keys [(tenantIdKey, 1)] hnd hdisj]
      rfl
    have heq : compoundSchemaIndex tenantIdKey idx =
        { keys := (tenantIdKey, 1) :: idx.keys, options := idx.options } := by
      simp [compoundSchemaIndex, hu, hp, hkeys]
    refine ⟨heq, ?_⟩
    have hmap : compoundSchemaIndex tenantIdKey idx ∈
        s.indexes.map (compoundSchemaIndex tenantIdKey) :=
      List.mem_map_of_mem _ hmem
    rw [heq] at hmap
    rw [compoundIndexes_enabled]
    exact List.mem_append_left _ hmap
  · intro hskip
    have heq : compoundSchemaIndex tenantIdKey idx = idx := by
      rcases hskip with hu | hp
      · simp [compoundSchemaIndex, hu]
      · simp [compoundSchemaIndex, hp]
    refine ⟨heq, ?_⟩
    have hmap : compoundSchemaIndex tenantIdKey idx ∈
        s.indexes.map (compoundSchemaIndex tenantIdKey) :=
      List.mem_map_of_mem _ hmem
    rw [heq] at hmap
    rw [compoundIndexes_enabled]
    exact List.mem_append_left _ hmap

theorem compoundIndexes_schema_level_witness :
    compoundSchemaIndex "tenant"
        ⟨[("email", 1)], ⟨true, false, false, none⟩⟩ =
      { keys := [("tenant", 1), ("email", 1)],
        options := ⟨true, false, false, none⟩ } ∧
    ({ keys := [("tenant", 1), ("email", 1)],
       options := ⟨true, false, false, none⟩ } : IndexSpec) ∈
      (compoundIndexes true "tenant"
        ⟨[⟨[("email", 1)], ⟨true, false, false, none⟩⟩], []⟩).indexes :=
  (compoundIndexes_schema_level "tenant"
      ⟨[⟨[("email", 1)], ⟨true, false, false, none⟩⟩], []⟩
      ⟨[("email", 1)], ⟨true, false, false, none⟩⟩ (by decide)).1
    rfl rfl (by decide) (by decide)

/-- **C8**: `compoundIndexes()` leaves every schema path (and hence its own
field-level index declaration) untouched, and for every path declared
`unique: true` without `preserveUniqueKey: true` appends a new compound
unique index over `{tenantIdKey: 1, field: 1}` whose options carry the
path's options verbatim — in particular `sparse` and
`partialFilterExpression` — with uniqueness kept; paths with
`preserveUniqueKey: true` (or without `unique: true`) gain no compound
index. -/
theorem compoundIndexes_field_level (tenantIdKey : String) (s : SchemaState)
    (key : String) (opts : IndexOptions) :
    (compoundIndexes true tenantIdKey s).paths = s.paths ∧
    ((key, opts) ∈ s.paths → opts.unique = true → opts.preserveUniqueKey = false →
      key ≠ tenantIdKey →
      fieldCompoundEntry tenantIdKey (key, opts) =
        some { keys := [(tenantIdKey, 1), (key, 1)],
               options := { opts with unique := true } } ∧
      { keys := [(tenantIdKey, 1), (key, 1)],
        options := { opts with unique := true } } ∈
        (compoundIndexes true tenantIdKey s).indexes ∧
      ({ opts with unique := true } : IndexOptions).sparse = opts.sparse ∧
      ({ opts with unique := true } : IndexOptions).partialFilterExpression =
        opts.partialFilterExpression) ∧
    (opts.preserveUniqueKey = true →
      fieldCompoundEntry tenantIdKey (key, opts) = none) ∧
    (opts.unique = false → fieldCompoundEntry tenantIdKey (key, opts) = none) := by
  refine ⟨by simp [compoundIndexes], fun hmem hu hp hk => ?_, fun hp => ?_,
    fun hu => ?_⟩
  · have hks : ¬tenantIdKey = key := fun hh => hk hh.symm
    have hentry : fieldCompoundEntry tenantIdKey (key, opts) =
        some { keys := [(tenantIdKey, 1), (key, 1)],
               options := { opts with unique := true } } := by
      simp [fieldCompoundEntry, hu, hp, jsSet, hks]
    refine ⟨hentry, ?_, rfl, rfl⟩
    rw [compoundIndexes_enabled]
    exact List.mem_append_right _ (List.mem_filterMap.mpr ⟨(key, opts), hmem, hentry⟩)
  · simp [fieldCompoundEntry, hp]
  · simp [fieldCompoundEntry, hu]

theorem compoundIndexes_field_level_witness :
    fieldCompoundEntry "tenant"
        ("email", ⟨true, false, true, some [("active", JSVal.bool true)]⟩) =
      some { keys := [("tenant", 1), ("email", 1)],
             options := ⟨true, false, true, some [("active", JSVal.bool true)]⟩ } ∧
    ({ keys := [("tenant", 1), ("email", 1)],
       options := ⟨true, false, true, some [("active", JSVal.bool true)]⟩ } :
        IndexSpec) ∈
      (compoundIndexes true "tenant"
        ⟨[], [("email", ⟨true, false, true, some [("active", JSVal.bool true)]⟩)]⟩).indexes := by
  have h := (compoundIndexes_field_level "tenant"
      ⟨[], [("email", ⟨true, false, true, some [("active", JSVal.bool true)]⟩)]⟩
      "email" ⟨true, false, true, some [("active", JSVal.bool true)]⟩).2.1
    (by decide) rfl rfl (by decide)
  exact ⟨h.1, h.2.1⟩
